import Mathlib

/-!
Verification development for the JobMateAI content-extraction and matching
pipeline (backend/app/services/ai.py, backend/app/services/scrapers.py,
backend/app/routers/resume.py).

The Python source is shallowly embedded: pure string-processing functions are
translated to executable Lean functions over `List Char` / `String`; the
regular expressions used by the source are embedded as specialised matchers
that follow the leftmost-search, greedy-with-ordered-alternation semantics of
Python's `re` module on the pattern shapes actually used; HTML-page access
(BeautifulSoup lookups) is abstracted as a record of the strings each lookup
would produce; network fetching and sleeping are modelled as an explicit event
trace with an injected fetcher.  Real arithmetic (Python floats) is modelled
with `ℚ`, and Python's round-half-to-even `round(x, 2)` is modelled exactly on
`ℚ`.
-/

namespace JobMate

/-- Python's `\s` whitespace class (ASCII range, which covers all inputs
considered here). -/
def isPySpace (c : Char) : Bool :=
  c = ' ' || c = '\t' || c = '\n' || c = '\r' || c = '\x0b' || c = '\x0c'

/-- Python's `\w` word-character class (ASCII range). -/
def isWordChar (c : Char) : Bool :=
  c.isAlphanum || c = '_'

/-- Python's substring containment test `needle in hay` on strings. -/
def isSubstrOf (needle : List Char) : List Char → Bool
  | [] => needle.isEmpty
  | c :: rest => needle.isPrefixOf (c :: rest) || isSubstrOf needle rest

/-- Python's `str.lower()` (character-wise; all inputs of interest are ASCII,
where Python's and Lean's per-character lowering agree). -/
def lowerChars (l : List Char) : List Char := l.map Char.toLower

/-- Test `needle.lower() in hay.lower()` — both sides lowercased, then Python `in`. -/
def strContains (hay needle : String) : Bool :=
  isSubstrOf (lowerChars needle.toList) (lowerChars hay.toList)

/-- The fixed skill vocabulary of `LinkedInScraper.extract_skills`
(scrapers.py, `common_skills`). -/
def common_skills : List String :=
  ["Python", "Java", "JavaScript", "TypeScript", "React", "Angular", "Vue",
   "Node.js", "Django", "Flask", "FastAPI", "Spring", "SQL", "PostgreSQL",
   "MySQL", "MongoDB", "Redis", "Docker", "Kubernetes", "AWS", "Azure", "GCP",
   "Git", "CI/CD", "REST", "API", "GraphQL", "Microservices", "Agile", "Scrum",
   "C++", "C#", ".NET", "Ruby", "PHP", "Go", "Rust", "Swift", "Kotlin",
   "HTML", "CSS", "Tailwind", "Bootstrap", "Redux", "Next.js", "Express"]

/-- Model of `LinkedInScraper.extract_skills`: for each vocabulary term, test
`skill.lower() in text_lower` (substring containment, the Python `in`
operator), appending hits in vocabulary order; the result is truncated to the
first 10 entries. -/
def extract_skills (text : String) : List String :=
  let found_skills := common_skills.foldl
    (fun acc skill => if strContains text skill then acc ++ [skill] else acc) []
  found_skills.take 10

/-- Python's `\b` word-boundary assertion between two (optional) adjacent
characters: it holds when exactly one side is a word character (a missing
character, i.e. the edge of the string, counts as a non-word side). -/
def wordBoundary (before after : Option Char) : Bool :=
  (match before with | none => false | some c => isWordChar c) !=
  (match after with | none => false | some c => isWordChar c)

/-- Does the literal pattern `\b needle \b` match at the current position of
`hay`, where `prev` is the character just before that position (`none` at the
start of the string)?  `re.escape` makes the skill a literal, so the pattern
`\b + re.escape(skill) + \b` used by `calculate_match_score` is exactly a
boundary-delimited literal. -/
def wbMatchAt (needle : List Char) (prev : Option Char) (hay : List Char) : Bool :=
  match needle with
  | [] => wordBoundary prev hay.head?
  | n :: ns =>
    wordBoundary prev (some n) &&
    (n :: ns).isPrefixOf hay &&
    wordBoundary ((n :: ns).getLast?) ((hay.drop (ns.length + 1)).head?)

/-- Search (`re.search`) of the literal pattern `\b needle \b` over `hay`: try every
position from the left, tracking the previous character. -/
def wbSearchGo (needle : List Char) (prev : Option Char) : List Char → Bool
  | [] => wbMatchAt needle prev []
  | c :: rest => wbMatchAt needle prev (c :: rest) || wbSearchGo needle (some c) rest

/-- Whole-word search of `needle` in `hay` (Python
`re.search(r'\b' + re.escape(needle) + r'\b', hay)` as a boolean). -/
def wbSearch (needle hay : List Char) : Bool :=
  wbSearchGo needle none hay

/-- Round half to even at integer precision (Python `round` on a value that is
exactly representable; floats are modelled by `ℚ`). -/
def roundHalfEven (x : ℚ) : ℤ :=
  if x - ⌊x⌋ < 1/2 then ⌊x⌋
  else if x - ⌊x⌋ > 1/2 then ⌊x⌋ + 1
  else if Even ⌊x⌋ then ⌊x⌋ else ⌊x⌋ + 1

/-- Model of Python `round(x, 2)` on `ℚ`. -/
def round2 (x : ℚ) : ℚ := (roundHalfEven (x * 100) : ℚ) / 100

/-- The result triple of `calculate_match_score`. -/
structure MatchResult where
  score : ℚ
  matched_skills : List String
  missing_skills : List String
deriving Repr, DecidableEq

/-- Model of `calculate_match_score` (ai.py).  The TF-IDF cosine similarity computed by
scikit-learn (or its `0.0` fallback when vectorization throws) is abstracted
as the parameter `sim`: the function's own arithmetic is embedded exactly,
and theorems assume only `0 ≤ sim ≤ 1`, which holds both for the fallback and
for any cosine similarity of nonnegative TF-IDF vectors. -/
def calculate_match_score (sim : ℚ) (user_skills : List String)
    (target_role job_title job_description : String) : MatchResult :=
  let _ := target_role   -- feeds only the abstracted semantic component `sim`
  if user_skills = [] then ⟨0, [], []⟩
  else
    let job_text := lowerChars ((job_title ++ " " ++ job_description).toList)
    let matched_skills := user_skills.filter
      (fun skill => wbSearch (lowerChars skill.toList) job_text)
    let missing_skills := user_skills.filter (fun s => ¬ (s ∈ matched_skills))
    let skill_match_ratio : ℚ := (matched_skills.length : ℚ) / (user_skills.length : ℚ)
    let final_score := (skill_match_ratio * (1/2) + sim * (1/2)) * 100
    let capped := min (100 : ℚ) final_score
    ⟨round2 capped, matched_skills, missing_skills⟩

/-! Salary extraction — (`JobScraper.extract_salary`)

The three patterns of `extract_salary` are embedded as specialised matchers.
On these pattern shapes the greedy, ordered-alternation strategy below agrees
with Python's backtracking engine: every sub-pattern that could in principle
give back characters (`\d+`, `(?:,\d{3})*`, `(?:\.\d+)?`, `\s*`, the optional
currency signs) is followed by a requirement (a digit, a range separator, a
currency sign) that no shorter greedy choice could ever satisfy, so no
backtracking path succeeds where the greedy path fails. -/

/-- Greedy `\d*` span: maximal run of leading digits, plus the rest. -/
def spanDigits : List Char → List Char × List Char
  | [] => ([], [])
  | c :: rest =>
    if c.isDigit then (c :: (spanDigits rest).1, (spanDigits rest).2)
    else ([], c :: rest)

/-- Greedy `(?:,\d{3})*`: maximal sequence of comma-plus-three-digit groups. -/
def commaGroups : List Char → List Char × List Char
  | ',' :: a :: b :: c :: rest =>
    if a.isDigit && b.isDigit && c.isDigit then
      (',' :: a :: b :: c :: (commaGroups rest).1, (commaGroups rest).2)
    else ([], ',' :: a :: b :: c :: rest)
  | l => ([], l)

/-- Greedy `(?:\.\d+)?`: an optional decimal point followed by digits. -/
def optDecimal : List Char → List Char × List Char
  | '.' :: rest =>
    if (spanDigits rest).1.isEmpty then ([], '.' :: rest)
    else ('.' :: (spanDigits rest).1, (spanDigits rest).2)
  | l => ([], l)

/-- Greedy `\s*`: drop leading whitespace. -/
def dropSpaces (l : List Char) : List Char := l.dropWhile isPySpace

/-- Optional literal `c?`: consume one matching character when present. -/
def optChar (c : Char) : List Char → List Char
  | [] => []
  | x :: rest => if x = c then rest else x :: rest

/-- The range separator `(?:-|to|–)` (alternatives in pattern order). -/
def matchSep : List Char → Option (List Char)
  | '-' :: rest => some rest
  | 't' :: 'o' :: rest => some rest
  | '–' :: rest => some rest
  | _ => none

/-- The captured group `(\d+(?:,\d{3})*(?:\.\d+)?)` of the range patterns:
returns the captured characters and the rest, or `none` when no digit leads. -/
def matchNumDec (l : List Char) : Option (List Char × List Char) :=
  let d := spanDigits l
  if d.1.isEmpty then none
  else
    let cg := commaGroups d.2
    let dec := optDecimal cg.2
    some (d.1 ++ cg.1 ++ dec.1, dec.2)

/-- The captured group `(\d+(?:,\d{3})*)` of the single-value pattern. -/
def matchNumNoDec (l : List Char) : Option (List Char × List Char) :=
  let d := spanDigits l
  if d.1.isEmpty then none
  else
    let cg := commaGroups d.2
    some (d.1 ++ cg.1, cg.2)

/-- Match of the ILS range pattern
`₪?\s*(num)\s*(?:-|to|–)\s*₪?\s*(num)` at the current position, returning the
two captured groups. -/
def ilsRangeAt (l : List Char) : Option (List Char × List Char) :=
  let r1 := dropSpaces (optChar '₪' l)
  match matchNumDec r1 with
  | none => none
  | some (g1, r2) =>
    match matchSep (dropSpaces r2) with
    | none => none
    | some r4 =>
      let r5 := dropSpaces (optChar '₪' (dropSpaces r4))
      match matchNumDec r5 with
      | none => none
      | some (g2, _) => some (g1, g2)

/-- Match of the USD range pattern
`\$\s*(num)\s*(?:-|to|–)\s*\$?\s*(num)` at the current position. -/
def usdRangeAt : List Char → Option (List Char × List Char)
  | '$' :: l =>
    let r1 := dropSpaces l
    match matchNumDec r1 with
    | none => none
    | some (g1, r2) =>
      match matchSep (dropSpaces r2) with
      | none => none
      | some r4 =>
        let r5 := dropSpaces (optChar '$' (dropSpaces r4))
        match matchNumDec r5 with
        | none => none
        | some (g2, _) => some (g1, g2)
  | _ => none

/-- Match of the single-value pattern `₪?\s*(\d+(?:,\d{3})*)` at the current
position. -/
def singleAt (l : List Char) : Option (List Char) :=
  match matchNumNoDec (dropSpaces (optChar '₪' l)) with
  | none => none
  | some (g, _) => some g

/-- Search (`re.search`) with the ILS range pattern: leftmost successful position. -/
def searchIls : List Char → Option (List Char × List Char)
  | [] => none
  | c :: rest =>
    match ilsRangeAt (c :: rest) with
    | some g => some g
    | none => searchIls rest

/-- Search (`re.search`) with the USD range pattern. -/
def searchUsd : List Char → Option (List Char × List Char)
  | [] => none
  | c :: rest =>
    match usdRangeAt (c :: rest) with
    | some g => some g
    | none => searchUsd rest

/-- Search (`re.search`) with the single-value pattern. -/
def searchSingle : List Char → Option (List Char)
  | [] => none
  | c :: rest =>
    match singleAt (c :: rest) with
    | some g => some g
    | none => searchSingle rest

/-- Model of `s.replace(',', '')`. -/
def stripCommas (l : List Char) : List Char := l.filter (fun c => c ≠ ',')

/-- Decimal value of a digit string. -/
def digitsToNat (l : List Char) : Nat :=
  l.foldl (fun acc c => acc * 10 + (c.toNat - '0'.toNat)) 0

/-- Python `int(s.replace(',', ''))`: succeeds on a nonempty pure-digit string
after comma stripping, raises (here: `none`) otherwise — in particular on a
captured group that still contains a decimal point. -/
def pyIntOpt (l : List Char) : Option Int :=
  let s := stripCommas l
  if s ≠ [] ∧ s.all Char.isDigit then some (digitsToNat s : Int) else none

/-- The dictionary built by `extract_salary`. -/
structure SalaryInfo where
  min : Option Int
  max : Option Int
  currency : String
deriving Repr, DecidableEq

/-- Model of `JobScraper.extract_salary` (scrapers.py).  `none` models an escaped
`ValueError` from `int()` (possible when a captured group carries a decimal
part); every other path returns the dictionary the source builds. -/
def extract_salary (text : String) : Option SalaryInfo :=
  match searchIls text.toList with
  | some (g1, g2) =>
    match pyIntOpt g1, pyIntOpt g2 with
    | some a, some b => some ⟨some a, some b, "ILS"⟩
    | _, _ => none
  | none =>
    match searchUsd text.toList with
    | some (g1, g2) =>
      match pyIntOpt g1, pyIntOpt g2 with
      | some a, some b => some ⟨some a, some b, "USD"⟩
      | _, _ => none
    | none =>
      match searchSingle text.toList with
      | some g =>
        match pyIntOpt g with
        | some v => some ⟨some v, some v, "ILS"⟩
        | none => none
      | none => some ⟨none, none, "ILS"⟩

/-- Independent description of "the first number appearing anywhere in the
text": at the first digit of the text, the maximal digit run extended by
comma-separated three-digit groups. -/
def firstNumberChars : List Char → Option (List Char)
  | [] => none
  | c :: rest =>
    if c.isDigit then
      some ((spanDigits (c :: rest)).1 ++ (commaGroups (spanDigits (c :: rest)).2).1)
    else firstNumberChars rest

/-- Value of the first number in the text, commas stripped. -/
def firstNumberVal (l : List Char) : Option Nat :=
  (firstNumberChars l).map (fun g => digitsToNat (stripCommas g))

/-- Does the text contain a digit? -/
def hasDigit (l : List Char) : Bool := l.any Char.isDigit

/-! Fetch pipeline — (`JobScraper.fetch_page`)

The network fetch is injected as `fetcher : Nat → Option α` (result of the
attempt with the given 0-based index), and the observable behaviour — sleeps
and fetch attempts — is recorded as an explicit event trace. -/

/-- Observable events of one `fetch_page` call. -/
inductive FetchEv where
  | sleep (amount : ℚ)
  | attempt
deriving Repr, DecidableEq

/-- The loop body of `fetch_page`: `attempt` is the 0-based loop index,
`remaining = retries - attempt` iterations are left.  Each iteration sleeps
`delay` (rate limiting), fetches, and on failure either returns `None` (last
iteration) or sleeps `delay * (attempt + 1)` (the backoff line) and goes on. -/
def fetchGo (fetcher : Nat → Option α) (delay : ℚ) :
    Nat → Nat → Option α × List FetchEv
  | _, 0 => (none, [])
  | attempt, remaining + 1 =>
    let pre := [FetchEv.sleep delay, FetchEv.attempt]
    match fetcher attempt with
    | some a => (some a, pre)
    | none =>
      if remaining = 0 then (none, pre)
      else
        let next := fetchGo fetcher delay (attempt + 1) remaining
        (next.1, pre ++ FetchEv.sleep (delay * (attempt + 1)) :: next.2)

/-- Model of `JobScraper.fetch_page` with an injected fetcher, returning the result
and the event trace. -/
def fetch_page (fetcher : Nat → Option α) (retries : Nat) (delay : ℚ) :
    Option α × List FetchEv :=
  fetchGo fetcher delay 0 retries

/-- A fetcher that fails on every call. -/
def alwaysFail : Nat → Option Unit := fun _ => none

/-- Number of fetch attempts in a trace. -/
def countAttempts (tr : List FetchEv) : Nat :=
  tr.countP (fun e => e = FetchEv.attempt)

/-- Total sleep amounts separating consecutive fetch attempts: entry `k`
(0-based) is the total time slept after attempt `k` (after attempt 0 for
`k = 0`, i.e. before attempt `k + 1`) — for `k = 0` it is the total slept
before the first attempt. -/
def gapsGo (acc : ℚ) : List FetchEv → List ℚ
  | [] => []
  | FetchEv.sleep q :: rest => gapsGo (acc + q) rest
  | FetchEv.attempt :: rest => acc :: gapsGo 0 rest

/-- For each fetch attempt of the trace, in order, the total amount slept
since the previous attempt (since the start of the call for the first). -/
def gaps (tr : List FetchEv) : List ℚ := gapsGo 0 tr

/-! Site adapters and dispatch — (`scrapers.py`)

BeautifulSoup page access is abstracted as a `Soup` record: each `find`
chain of an adapter (primary selector, then fallback selector) is modelled by
one optional field holding the text of the element that chain would find, and
`get_text()` of the whole page by `getText`.  The network fetch is injected
as an `Option Soup`. -/

/-- Whitespace collapsing of `clean_text`, `re.sub(r'\s+', ' ', text)`: every
maximal whitespace run becomes one space.  The flag records whether the
previous character was part of a whitespace run already emitted as a space. -/
def collapseWsGo (prevSpace : Bool) : List Char → List Char
  | [] => []
  | c :: rest =>
    if isPySpace c then
      if prevSpace then collapseWsGo true rest
      else ' ' :: collapseWsGo true rest
    else c :: collapseWsGo false rest

/-- Replacement `re.sub(r'\s+', ' ', text)` of `clean_text`. -/
def collapseWs (l : List Char) : List Char := collapseWsGo false l

/-- Python `str.strip()`: remove leading and trailing whitespace. -/
def stripEnds (l : List Char) : List Char :=
  ((l.dropWhile isPySpace).reverse.dropWhile isPySpace).reverse

/-- Model of `JobScraper.clean_text`: empty (falsy) input maps to `""`, otherwise the
whitespace of the text is collapsed and the ends stripped. -/
def clean_text (s : String) : String :=
  if s = "" then "" else ⟨stripEnds (collapseWs s.toList)⟩

/-- Abstraction of a fetched, parsed page.  Each optional field is the text
of the element found by the corresponding selector chain of the adapter under
consideration (`none` when every selector of the chain misses); `getText` is
`soup.get_text()` for the whole page. -/
structure Soup where
  titleElem : Option String
  companyElem : Option String
  locationElem : Option String
  descElem : Option String
  jobTypeElem : Option String
  salaryElem : Option String
  getText : String
deriving Repr, DecidableEq

/-- The job dictionary each adapter builds. -/
structure JobData where
  title : Option String
  company : Option String
  location : Option String
  description : Option String
  job_type : String
  work_mode : String
  skills : List String
  salary_min : Option Int
  salary_max : Option Int
deriving Repr, DecidableEq

/-- The initial dictionary shared by all adapters. -/
def baseJobData : JobData :=
  ⟨none, none, none, none, "Full-time", "Onsite", [], none, none⟩

/-- Work-mode inference shared by the LinkedIn and Indeed adapters:
lowercased whole-page text searched for the literal substrings. -/
def inferWorkMode (fullTextLower : List Char) : String :=
  if isSubstrOf "remote".toList fullTextLower then "Remote"
  else if isSubstrOf "hybrid".toList fullTextLower then "Hybrid"
  else "Onsite"

/-- Job-type inference of the LinkedIn adapter. -/
def inferJobTypeLinkedIn (fullTextLower : List Char) : String :=
  if isSubstrOf "part-time".toList fullTextLower ||
     isSubstrOf "part time".toList fullTextLower then "Part-time"
  else if isSubstrOf "contract".toList fullTextLower then "Contract"
  else "Full-time"

/-- Python truthiness of an optional string (`if job_data["description"]:`):
`none` and the empty string are falsy. -/
def truthy : Option String → Bool
  | none => false
  | some s => s ≠ ""

/-- Skills step shared by every adapter: run `extract_skills` on the
description when it is truthy. -/
def skillsOf (desc : Option String) : List String :=
  match desc with
  | some d => if d = "" then [] else extract_skills d
  | none => []

/-- Model of `LinkedInScraper.scrape` over an injected fetch result.  A `none` result
models the `except` branch (including an `int()` error escaping
`extract_salary`, which the adapter's `try` catches). -/
def linkedin_scrape (fetched : Option Soup) : Option JobData :=
  match fetched with
  | none => none
  | some soup =>
    let title := soup.titleElem.map clean_text
    let company := soup.companyElem.map clean_text
    let location := soup.locationElem.map clean_text
    let description := soup.descElem.map clean_text
    let full_text := lowerChars soup.getText.toList
    let work_mode := inferWorkMode full_text
    let job_type := inferJobTypeLinkedIn full_text
    let skills := skillsOf description
    match extract_salary soup.getText with
    | none => none
    | some si =>
      some { baseJobData with
        title := title, company := company, location := location,
        description := description, job_type := job_type,
        work_mode := work_mode, skills := skills,
        salary_min := si.min, salary_max := si.max }

/-- Model of `IndeedScraper.scrape`: like LinkedIn but salary comes from a dedicated
salary element (only when present), and job type from a job-type element
searched for `'part'` / `'contract'`. -/
def indeed_scrape (fetched : Option Soup) : Option JobData :=
  match fetched with
  | none => none
  | some soup =>
    let title := soup.titleElem.map clean_text
    let company := soup.companyElem.map clean_text
    let location := soup.locationElem.map clean_text
    let description := soup.descElem.map clean_text
    let job_type :=
      match soup.jobTypeElem with
      | none => "Full-time"
      | some t =>
        let tl := lowerChars t.toList
        if isSubstrOf "part".toList tl then "Part-time"
        else if isSubstrOf "contract".toList tl then "Contract"
        else "Full-time"
    let work_mode := inferWorkMode (lowerChars soup.getText.toList)
    let skills := skillsOf description
    match soup.salaryElem with
    | none =>
      some { baseJobData with
        title := title, company := company, location := location,
        description := description, job_type := job_type,
        work_mode := work_mode, skills := skills }
    | some st =>
      match extract_salary st with
      | none => none
      | some si =>
        some { baseJobData with
          title := title, company := company, location := location,
          description := description, job_type := job_type,
          work_mode := work_mode, skills := skills,
          salary_min := si.min, salary_max := si.max }

/-- Model of `GlassdoorScraper.scrape`: no job-type/work-mode inference, salary from a
dedicated element. -/
def glassdoor_scrape (fetched : Option Soup) : Option JobData :=
  match fetched with
  | none => none
  | some soup =>
    let title := soup.titleElem.map clean_text
    let company := soup.companyElem.map clean_text
    let location := soup.locationElem.map clean_text
    let description := soup.descElem.map clean_text
    let skills := skillsOf description
    match soup.salaryElem with
    | none =>
      some { baseJobData with
        title := title, company := company, location := location,
        description := description, skills := skills }
    | some st =>
      match extract_salary st with
      | none => none
      | some si =>
        some { baseJobData with
          title := title, company := company, location := location,
          description := description, skills := skills,
          salary_min := si.min, salary_max := si.max }

/-- Model of `DrushimScraper.scrape`: same shape as Glassdoor. -/
def drushim_scrape (fetched : Option Soup) : Option JobData :=
  glassdoor_scrape fetched

/-- Model of `AllJobsScraper.scrape`: only title, company, description and skills are
extracted. -/
def alljobs_scrape (fetched : Option Soup) : Option JobData :=
  match fetched with
  | none => none
  | some soup =>
    let title := soup.titleElem.map clean_text
    let company := soup.companyElem.map clean_text
    let description := soup.descElem.map clean_text
    some { baseJobData with
      title := title, company := company,
      description := description, skills := skillsOf description }

/-- The adapter variants of `ScraperFactory`. -/
inductive ScraperKind where
  | linkedin | indeed | glassdoor | drushim | alljobs
deriving Repr, DecidableEq

/-- The host (netloc) component of a URL as `urlparse` extracts it for
scheme-prefixed URLs: the text between the first `://` and the next `/`,
`?` or `#` (empty when the URL has no `://`). -/
def netlocAfter : List Char → Option (List Char)
  | [] => none
  | ':' :: '/' :: '/' :: rest => some rest
  | _ :: rest => netlocAfter rest

/-- Model of `urlparse(url).netloc` for the URL shapes dispatched on here. -/
def netloc (url : String) : List Char :=
  match netlocAfter url.toList with
  | none => []
  | some rest => rest.takeWhile (fun c => c ≠ '/' && c ≠ '?' && c ≠ '#')

/-- Model of `ScraperFactory.get_scraper`: substring dispatch on the lowercased host,
in the fixed source order, defaulting to the LinkedIn adapter (the generic
fallback of the factory is literally `LinkedInScraper()`). -/
def get_scraper (url : String) : ScraperKind :=
  let domain := lowerChars (netloc url)
  if isSubstrOf "linkedin.com".toList domain then .linkedin
  else if isSubstrOf "indeed.com".toList domain ||
          isSubstrOf "indeed.co".toList domain then .indeed
  else if isSubstrOf "glassdoor.com".toList domain then .glassdoor
  else if isSubstrOf "drushim.co.il".toList domain then .drushim
  else if isSubstrOf "alljobs.co.il".toList domain then .alljobs
  else .linkedin

/-- Run the scrape method of the selected adapter. -/
def runScrape (k : ScraperKind) (fetched : Option Soup) : Option JobData :=
  match k with
  | .linkedin => linkedin_scrape fetched
  | .indeed => indeed_scrape fetched
  | .glassdoor => glassdoor_scrape fetched
  | .drushim => drushim_scrape fetched
  | .alljobs => alljobs_scrape fetched

/-- Model of `ScraperFactory.scrape_job` with the page environment injected: dispatch,
scrape, then keep the record only if it exists and its title is truthy
(`if result and result.get('title')`). -/
def scrape_job (env : String → Option Soup) (url : String) : Option JobData :=
  match runScrape (get_scraper url) (env url) with
  | some r => if truthy r.title then some r else none
  | none => none

/-! Resume skill extraction — (`parse_resume_text`, resume.py)

The five skill-category patterns are each of the shape
`\b(alt1|alt2|...)\b` with literal alternatives, run with `re.findall` and
`re.IGNORECASE`.  `Node\.?js` is an alternative with an optional dot; since a
backtracking engine tries the dot first, it is expanded into the two ordered
literals `Node.js`, `Nodejs`.  `re.findall` returns the text of group 1, i.e.
the slice of the input that matched (in the input's own casing). -/

/-- Case-insensitive literal prefix match, returning the matched slice of the
haystack (preserving its casing) and the rest. -/
def ciLit : List Char → List Char → Option (List Char × List Char)
  | [], hay => some ([], hay)
  | _ :: _, [] => none
  | n :: ns, h :: hs =>
    if n.toLower = h.toLower then
      match ciLit ns hs with
      | some (m, r) => some (h :: m, r)
      | none => none
    else none

/-- Try the ordered alternatives of a `\b(...)\b` pattern at the current
position (`prev` is the preceding character): first alternative whose leading
boundary, case-insensitive literal and trailing boundary all hold. -/
def tryAltsAt (alts : List (List Char)) (prev : Option Char) (hay : List Char) :
    Option (List Char × List Char) :=
  match alts with
  | [] => none
  | a :: rest =>
    let next := tryAltsAt rest prev hay
    match a with
    | [] => next
    | a0 :: _ =>
      if wordBoundary prev (some a0) then
        match ciLit a hay with
        | some (m, hrest) =>
          if wordBoundary m.getLast? hrest.head? then some (m, hrest) else next
        | none => next
      else next

/-- Scan of `re.findall` for a `\b(alts)\b` pattern: left-to-right, non-
overlapping, continuing right after each match.  The fuel is the remaining
haystack length plus one; every alternative is a nonempty literal, so each
match consumes at least one character and the fuel never runs out. -/
def findAllGo (alts : List (List Char)) :
    Nat → Option Char → List Char → List (List Char)
  | 0, _, _ => []
  | fuel + 1, prev, hay =>
    match tryAltsAt alts prev hay with
    | some (m, hrest) => m :: findAllGo alts fuel m.getLast? hrest
    | none =>
      match hay with
      | [] => []
      | c :: rest => findAllGo alts fuel (some c) rest

/-- Model of `re.findall(r'\b(alts)\b', text, re.IGNORECASE)`. -/
def findAll (alts : List String) (text : String) : List (List Char) :=
  let hay := text.toList
  findAllGo (alts.map String.toList) (hay.length + 1) none hay

/-- The five skill-category patterns of `parse_resume_text`, as ordered
literal alternatives (`Node\.?js` expanded as explained above). -/
def skill_patterns : List (List String) :=
  [["Python", "JavaScript", "Java", "C++", "C#", "Ruby", "PHP", "Swift",
    "Kotlin", "Go", "Rust", "TypeScript"],
   ["React", "Angular", "Vue", "Node.js", "Nodejs", "Django", "Flask",
    "Spring", ".NET", "Laravel", "Rails"],
   ["SQL", "MySQL", "PostgreSQL", "MongoDB", "Redis", "Oracle", "SQLite"],
   ["AWS", "Azure", "GCP", "Docker", "Kubernetes", "Jenkins", "Git", "CI/CD"],
   ["HTML", "CSS", "REST", "GraphQL", "API", "Agile", "Scrum",
    "Machine Learning", "AI", "Data Analysis"]]

/-- First-seen-order deduplication. -/
def dedupFirst : List (List Char) → List (List Char)
  | [] => []
  | x :: rest => x :: (dedupFirst rest).filter (fun y => y ≠ x)

/-- The skills portion of `parse_resume_text`: run the five patterns in
order, strip each match, keep the truthy ones, deduplicate (the source
accumulates into a Python `set`, whose iteration order is unspecified; the
claims checked here are order-independent, and first-seen order is used as
one concrete representative), and truncate to 20. -/
def parse_resume_skills (text : String) : List String :=
  let matches_ := skill_patterns.foldl (fun acc pat => acc ++ findAll pat text) []
  let cleaned := (matches_.map stripEnds).filter (fun m => m ≠ [])
  ((dedupFirst cleaned).take 20).map (fun l => ⟨l⟩)

/-! Concrete fixtures used by witnesses: a page whose only selector hit is the
title, and the record the LinkedIn adapter extracts from it. -/

/-- A minimal page: every selector chain except the title misses. -/
def soup0 : Soup := ⟨some "Engineer", none, none, none, none, none, "Engineer"⟩

/-- The record the LinkedIn adapter extracts from `soup0`. -/
def jd0 : JobData :=
  ⟨some "Engineer", none, none, none, "Full-time", "Onsite", [], none, none⟩

/-- A page environment serving `soup0` for every URL. -/
def env0 : String → Option Soup := fun _ => some soup0

/-! Theorems.  General-purpose helper lemmas come first, then one theorem per
claim (with its witness or counterexample where applicable). -/

theorem foldl_append_filter {α : Type} (p : α → Bool) :
    ∀ (l acc : List α),
      l.foldl (fun acc x => if p x then acc ++ [x] else acc) acc = acc ++ l.filter p
  | [], acc => by simp
  | x :: rest, acc => by
    by_cases h : p x = true
    · simp [List.foldl_cons, h, foldl_append_filter p rest (acc ++ [x])]
    · simp only [Bool.not_eq_true] at h
      simp [List.foldl_cons, h, foldl_append_filter p rest acc]

/-- C4 (counterexample): on the text "PostgreSQL", `extract_skills` returns
the vocabulary term "SQL" — which does not occur in the text as a whole token
(whole-word search of "sql" in "postgresql" fails) — so the matcher is a
substring matcher, not a whole-token matcher, and its output differs from the
whole-token prediction ["PostgreSQL"]. -/
theorem extract_skills_not_whole_token :
    extract_skills "PostgreSQL" = ["SQL", "PostgreSQL"] ∧
    wbSearch (lowerChars "SQL".toList) (lowerChars "PostgreSQL".toList) = false ∧
    extract_skills "PostgreSQL" ≠ ["PostgreSQL"] := by
  refine ⟨by decide, by decide, by decide⟩

/-- C4 (amended): for every description text, `extract_skills` returns
exactly those terms of the fixed 46-term vocabulary whose lowercased form
occurs as a substring (not necessarily a whole token) of the lowercased text,
listed in vocabulary order and capped at 10 entries. -/
theorem extract_skills_substring_spec (text : String) :
    extract_skills text =
      (common_skills.filter (fun skill => strContains text skill)).take 10 := by
  unfold extract_skills
  rw [foldl_append_filter]
  simp

/-- C2: for every input (any similarity value, any skills list, any role and
job text), the `matched_skills` and `missing_skills` returned by
`calculate_match_score` partition the input `user_skills`: their union equals
`user_skills` as a set, they are disjoint, both are sublists of the input
(hence preserve input order), and every returned entry is literally an
element of the input list (original casing preserved). -/
theorem match_partition (sim : ℚ) (user_skills : List String)
    (target_role job_title job_description : String) :
    (∀ x, (x ∈ (calculate_match_score sim user_skills target_role job_title
                 job_description).matched_skills ∨
           x ∈ (calculate_match_score sim user_skills target_role job_title
                 job_description).missing_skills) ↔ x ∈ user_skills) ∧
    (∀ x, x ∈ (calculate_match_score sim user_skills target_role job_title
                job_description).matched_skills →
          x ∉ (calculate_match_score sim user_skills target_role job_title
                job_description).missing_skills) ∧
    (calculate_match_score sim user_skills target_role job_title
      job_description).matched_skills.Sublist user_skills ∧
    (calculate_match_score sim user_skills target_role job_title
      job_description).missing_skills.Sublist user_skills := by
  unfold calculate_match_score
  by_cases h : user_skills = []
  · subst h; simp
  · simp only [if_neg h]
    refine ⟨?_, ?_, List.filter_sublist _, List.filter_sublist _⟩
    · intro x
      constructor
      · rintro (hx | hx)
        · exact (List.mem_filter.mp hx).1
        · exact (List.mem_filter.mp hx).1
      · intro hx
        by_cases hm :
            x ∈ user_skills.filter
              (fun skill =>
                wbSearch (lowerChars skill.toList)
                  (lowerChars ((job_title ++ " " ++ job_description).toList)))
        · exact Or.inl hm
        · refine Or.inr (List.mem_filter.mpr ⟨hx, ?_⟩)
          simp only [List.mem_filter, not_and, Bool.not_eq_true] at hm
          simpa using Or.inr (hm hx)
    · intro x hx hmiss
      have := (List.mem_filter.mp hmiss).2
      simp only [decide_eq_true_eq] at this
      exact this hx

/-- C2 witness: the partition at a concrete input. -/
theorem match_partition_witness :
    (∀ x, (x ∈ (calculate_match_score 0 ["Python", "SQL"] "backend" "dev"
                 "Python wanted").matched_skills ∨
           x ∈ (calculate_match_score 0 ["Python", "SQL"] "backend" "dev"
                 "Python wanted").missing_skills) ↔ x ∈ ["Python", "SQL"]) ∧
    (∀ x, x ∈ (calculate_match_score 0 ["Python", "SQL"] "backend" "dev"
                "Python wanted").matched_skills →
          x ∉ (calculate_match_score 0 ["Python", "SQL"] "backend" "dev"
                "Python wanted").missing_skills) ∧
    (calculate_match_score 0 ["Python", "SQL"] "backend" "dev"
      "Python wanted").matched_skills.Sublist ["Python", "SQL"] ∧
    (calculate_match_score 0 ["Python", "SQL"] "backend" "dev"
      "Python wanted").missing_skills.Sublist ["Python", "SQL"] :=
  match_partition 0 ["Python", "SQL"] "backend" "dev" "Python wanted"

/-- C3: the two salary-extraction examples — an ILS range with shekel signs
and an en-dash-free separator, and a USD range with the word separator
"to". -/
theorem extract_salary_examples :
    extract_salary "₪15,000 - ₪20,000" = some ⟨some 15000, some 20000, "ILS"⟩ ∧
    extract_salary "$80,000 to $100,000" = some ⟨some 80000, some 100000, "USD"⟩ := by
  refine ⟨by decide, by decide⟩

/-- C7: resume skill extraction over "Python, React and PostgreSQL experience
required" yields exactly the skills Python, React and PostgreSQL — in
particular "SQL" is not extracted from inside "PostgreSQL" — and the result
has at most 20 entries. -/
theorem resume_skills_example :
    parse_resume_skills "Python, React and PostgreSQL experience required" =
      ["Python", "React", "PostgreSQL"] ∧
    (parse_resume_skills "Python, React and PostgreSQL experience required").length ≤ 20 ∧
    "SQL" ∉ parse_resume_skills "Python, React and PostgreSQL experience required" := by
  refine ⟨by decide, by decide, by decide⟩

theorem roundHalfEven_nonneg (y : ℚ) (hy : 0 ≤ y) : 0 ≤ roundHalfEven y := by
  have hf : (0 : ℤ) ≤ ⌊y⌋ := Int.floor_nonneg.mpr hy
  unfold roundHalfEven
  split_ifs <;> omega

theorem roundHalfEven_le_of_le (y : ℚ) (B : ℤ) (hy : y ≤ B) :
    roundHalfEven y ≤ B := by
  have hfB : ⌊y⌋ ≤ B := by
    have := Int.floor_le_floor hy
    simpa using this
  unfold roundHalfEven
  by_cases hlt : ⌊y⌋ < B
  · split_ifs <;> omega
  · have heq : ⌊y⌋ = B := le_antisymm hfB (not_lt.mp hlt)
    have hr : y - (⌊y⌋ : ℚ) ≤ 0 := by
      rw [heq]
      simpa using hy
    have hhalf : y - (⌊y⌋ : ℚ) < 1 / 2 := lt_of_le_of_lt hr (by norm_num)
    simp only [if_pos hhalf]
    omega

theorem round2_nonneg (x : ℚ) (hx : 0 ≤ x) : 0 ≤ round2 x := by
  unfold round2
  have h := roundHalfEven_nonneg (x * 100) (by positivity)
  positivity

theorem round2_le_100 (x : ℚ) (hx : x ≤ 100) : round2 x ≤ 100 := by
  unfold round2
  have h : roundHalfEven (x * 100) ≤ (10000 : ℤ) := by
    apply roundHalfEven_le_of_le
    push_cast
    linarith
  have h' : (roundHalfEven (x * 100) : ℚ) ≤ 10000 := by exact_mod_cast h
  linarith

/-- C1: for every non-empty `user_skills` and any role and job text, with the
semantic-similarity component `sim` in `[0, 1]` (which holds both for an
actual TF-IDF cosine similarity of nonnegative vectors and for the `0.0`
vectorization-failure fallback), the returned score equals
`round(min(100, (skillRatio * 0.5 + sim * 0.5) * 100), 2)` with
`skillRatio = |matched_skills| / |user_skills|`, and the score lies in
`[0, 100]`. -/
theorem match_score_formula_and_bounds (sim : ℚ) (user_skills : List String)
    (target_role job_title job_description : String)
    (hne : user_skills ≠ []) (h0 : 0 ≤ sim) (h1 : sim ≤ 1) :
    (calculate_match_score sim user_skills target_role job_title
      job_description).score =
      round2 (min 100
        (((((calculate_match_score sim user_skills target_role job_title
              job_description).matched_skills.length : ℚ) /
            (user_skills.length : ℚ)) * (1 / 2) +
          sim * (1 / 2)) * 100)) ∧
    0 ≤ (calculate_match_score sim user_skills target_role job_title
          job_description).score ∧
    (calculate_match_score sim user_skills target_role job_title
      job_description).score ≤ 100 := by
  unfold calculate_match_score
  simp only [if_neg hne]
  refine ⟨trivial, ?_, ?_⟩
  · apply round2_nonneg
    apply le_min (by norm_num)
    have hr : (0 : ℚ) ≤
        ((user_skills.filter
          (fun skill =>
            wbSearch (lowerChars skill.toList)
              (lowerChars ((job_title ++ " " ++ job_description).toList)))).length : ℚ) /
          (user_skills.length : ℚ) := by positivity
    nlinarith
  · apply round2_le_100
    exact min_le_left _ _

/-- C1 witness: the formula and bounds at a concrete input. -/
theorem match_score_formula_witness :
    (["Python"] : List String) ≠ [] ∧ (0 : ℚ) ≤ 0 ∧ (0 : ℚ) ≤ 1 ∧
    ((calculate_match_score 0 ["Python"] "backend" "Python dev" "x").score =
       round2 (min 100
         (((((calculate_match_score 0 ["Python"] "backend" "Python dev"
               "x").matched_skills.length : ℚ) /
             ((["Python"] : List String).length : ℚ)) * (1 / 2) +
           0 * (1 / 2)) * 100)) ∧
     0 ≤ (calculate_match_score 0 ["Python"] "backend" "Python dev" "x").score ∧
     (calculate_match_score 0 ["Python"] "backend" "Python dev" "x").score ≤ 100) :=
  ⟨by decide, le_refl 0, by norm_num,
    match_score_formula_and_bounds 0 ["Python"] "backend" "Python dev" "x"
      (by decide) (le_refl 0) (by norm_num)⟩

theorem fetchGo_alwaysFail_fst (delay : ℚ) :
    ∀ (r a : Nat), (fetchGo alwaysFail delay a r).1 = none := by
  intro r
  induction r with
  | zero => intro a; rfl
  | succ n ih =>
    intro a
    simp only [fetchGo, alwaysFail]
    split
    · rfl
    · simp [ih]

theorem fetchGo_alwaysFail_count (delay : ℚ) :
    ∀ (r a : Nat), countAttempts (fetchGo alwaysFail delay a r).2 = r := by
  intro r
  induction r with
  | zero => intro a; rfl
  | succ n ih =>
    intro a
    simp only [fetchGo, alwaysFail]
    by_cases hn : n = 0
    · subst hn
      simp [countAttempts]
    · simp only [if_neg hn]
      simp [countAttempts, List.countP_cons] at ih ⊢
      simp [ih]

theorem gapsGo_fetchGo_alwaysFail (delay : ℚ) :
    ∀ (r a : Nat) (acc : ℚ) (k : Nat), k < r →
      (gapsGo acc (fetchGo alwaysFail delay a r).2).get? k =
        some (if k = 0 then acc + delay else delay * (a + k) + delay) := by
  intro r
  induction r with
  | zero => intro a acc k hk; exact absurd hk (Nat.not_lt_zero k)
  | succ n ih =>
    intro a acc k hk
    simp only [fetchGo, alwaysFail]
    by_cases hn : n = 0
    · subst hn
      have hk0 : k = 0 := by omega
      subst hk0
      simp [gapsGo]
    · simp only [if_neg hn]
      cases k with
      | zero => simp [gapsGo]
      | succ j =>
        have hj : j < n := by omega
        have hrec := ih (a + 1) (0 + delay * (a + 1)) j hj
        simp only [gapsGo, List.get?]
        rw [hrec]
        by_cases hj0 : j = 0
        · subst hj0
          simp
        · simp only [if_neg hj0, Nat.succ_ne_zero, if_false]
          congr 1
          push_cast
          ring

/-- C5: under a fetcher that fails on every call, `fetch_page` returns the
failure signal `none` without raising, issues exactly `retries` fetch
attempts, and the total delay slept before attempt `k` (1-indexed, `k ≥ 2`) —
the backoff sleep `delay * (k - 1)` after the failed attempt `k - 1` plus the
fixed rate-limit sleep `delay` at the top of the iteration — equals
`delay * k`. -/
theorem fetch_page_retry_behavior (retries : Nat) (delay : ℚ) (k : Nat)
    (hk2 : 2 ≤ k) (hkr : k ≤ retries) :
    (fetch_page alwaysFail retries delay).1 = none ∧
    countAttempts (fetch_page alwaysFail retries delay).2 = retries ∧
    (gaps (fetch_page alwaysFail retries delay).2).get? (k - 1) =
      some (delay * k) := by
  refine ⟨fetchGo_alwaysFail_fst delay retries 0,
    fetchGo_alwaysFail_count delay retries 0, ?_⟩
  have hk1 : k - 1 < retries := by omega
  have h := gapsGo_fetchGo_alwaysFail delay retries 0 0 (k - 1) hk1
  unfold fetch_page gaps
  rw [h]
  have hkne : k - 1 ≠ 0 := by omega
  simp only [if_neg hkne]
  congr 1
  have : ((k - 1 : Nat) : ℚ) = (k : ℚ) - 1 := by
    push_cast [Nat.cast_sub (by omega : 1 ≤ k)]
    ring
  rw [this]
  push_cast
  ring

/-- C5 witness: three retries with unit base delay and `k = 2`. -/
theorem fetch_page_retry_witness :
    2 ≤ 2 ∧ 2 ≤ 3 ∧
    ((fetch_page alwaysFail 3 1).1 = none ∧
     countAttempts (fetch_page alwaysFail 3 1).2 = 3 ∧
     (gaps (fetch_page alwaysFail 3 1).2).get? (2 - 1) = some (1 * 2)) :=
  ⟨by norm_num, by norm_num,
    fetch_page_retry_behavior 3 1 2 (by norm_num) (by norm_num)⟩

theorem inferJobTypeLinkedIn_mem (l : List Char) :
    inferJobTypeLinkedIn l = "Full-time" ∨ inferJobTypeLinkedIn l = "Part-time" ∨
      inferJobTypeLinkedIn l = "Contract" := by
  unfold inferJobTypeLinkedIn
  split_ifs <;> simp

theorem inferWorkMode_mem (l : List Char) :
    inferWorkMode l = "Remote" ∨ inferWorkMode l = "Hybrid" ∨
      inferWorkMode l = "Onsite" := by
  unfold inferWorkMode
  split_ifs <;> simp

theorem extract_salary_currency (text : String) (si : SalaryInfo)
    (h : extract_salary text = some si) :
    si.currency ∈ (["ILS", "USD"] : List String) := by
  unfold extract_salary at h
  repeat' split at h
  all_goals simp_all
  all_goals (subst h; simp)

/-- C6 (counterexample): on a page whose only extracted field is the title,
the LinkedIn adapter produces the literals "Full-time" and "Onsite" — not the
claimed enum literals full_time and onsite. -/
theorem adapter_literals_cex :
    (linkedin_scrape (some soup0)).map JobData.job_type = some "Full-time" ∧
    (linkedin_scrape (some soup0)).map JobData.work_mode = some "Onsite" ∧
    "Full-time" ∉ (["full_time", "part_time", "contract"] : List String) ∧
    "Onsite" ∉ (["remote", "hybrid", "onsite"] : List String) := by
  refine ⟨by decide, by decide, by decide, by decide⟩

/-- C6 (amended): every job record produced by any adapter's scrape uses the
capitalized literals "Full-time" / "Part-time" / "Contract" for `job_type`
(default "Full-time") and "Remote" / "Hybrid" / "Onsite" for `work_mode`
(default "Onsite"), and salary extraction produces only the currency codes
"ILS" and "USD". -/
theorem adapter_literals (k : ScraperKind) (fetched : Option Soup) (jd : JobData)
    (h : runScrape k fetched = some jd) :
    jd.job_type ∈ (["Full-time", "Part-time", "Contract"] : List String) ∧
    jd.work_mode ∈ (["Remote", "Hybrid", "Onsite"] : List String) ∧
    ∀ (text : String) (si : SalaryInfo), extract_salary text = some si →
      si.currency ∈ (["ILS", "USD"] : List String) := by
  refine ⟨?_, ?_, fun text si hs => extract_salary_currency text si hs⟩
  all_goals
    cases k <;>
      simp only [runScrape, linkedin_scrape, indeed_scrape, glassdoor_scrape,
        drushim_scrape, alljobs_scrape] at h <;>
      cases fetched with
      | none => cases h
      | some soup =>
        repeat' split at h
        all_goals simp_all [baseJobData]
        all_goals (try subst h)
        all_goals (try simp [baseJobData])
        all_goals
          first
          | exact inferJobTypeLinkedIn_mem _
          | exact inferWorkMode_mem _

/-- C6 witness: the amended literal property at the concrete record the
LinkedIn adapter extracts from `soup0`. -/
theorem adapter_literals_witness :
    runScrape ScraperKind.linkedin (some soup0) = some jd0 ∧
    (jd0.job_type ∈ (["Full-time", "Part-time", "Contract"] : List String) ∧
     jd0.work_mode ∈ (["Remote", "Hybrid", "Onsite"] : List String) ∧
     ∀ (text : String) (si : SalaryInfo), extract_salary text = some si →
       si.currency ∈ (["ILS", "USD"] : List String)) :=
  ⟨by decide, adapter_literals ScraperKind.linkedin (some soup0) jd0 (by decide)⟩

/-- C8: adapter dispatch is total (a total Lean function: no exception can
escape), picks the LinkedIn variant for the example LinkedIn URL, the generic
fallback — which is literally the LinkedIn adapter — for an unknown host, and
follows the fixed substring precedence order linkedin.com, then
indeed.com/indeed.co, then glassdoor.com, then drushim.co.il, then
alljobs.co.il on the lowercased host, with the LinkedIn adapter for every
unmatched host. -/
theorem get_scraper_dispatch :
    get_scraper "https://www.linkedin.com/jobs/view/1" = ScraperKind.linkedin ∧
    get_scraper "https://unknown-board.example/x" = ScraperKind.linkedin ∧
    (∀ url, isSubstrOf "linkedin.com".toList (lowerChars (netloc url)) = true →
      get_scraper url = ScraperKind.linkedin) ∧
    (∀ url, isSubstrOf "linkedin.com".toList (lowerChars (netloc url)) = false →
      (isSubstrOf "indeed.com".toList (lowerChars (netloc url)) ||
       isSubstrOf "indeed.co".toList (lowerChars (netloc url))) = true →
      get_scraper url = ScraperKind.indeed) ∧
    (∀ url, isSubstrOf "linkedin.com".toList (lowerChars (netloc url)) = false →
      (isSubstrOf "indeed.com".toList (lowerChars (netloc url)) ||
       isSubstrOf "indeed.co".toList (lowerChars (netloc url))) = false →
      isSubstrOf "glassdoor.com".toList (lowerChars (netloc url)) = true →
      get_scraper url = ScraperKind.glassdoor) ∧
    (∀ url, isSubstrOf "linkedin.com".toList (lowerChars (netloc url)) = false →
      (isSubstrOf "indeed.com".toList (lowerChars (netloc url)) ||
       isSubstrOf "indeed.co".toList (lowerChars (netloc url))) = false →
      isSubstrOf "glassdoor.com".toList (lowerChars (netloc url)) = false →
      isSubstrOf "drushim.co.il".toList (lowerChars (netloc url)) = true →
      get_scraper url = ScraperKind.drushim) ∧
    (∀ url, isSubstrOf "linkedin.com".toList (lowerChars (netloc url)) = false →
      (isSubstrOf "indeed.com".toList (lowerChars (netloc url)) ||
       isSubstrOf "indeed.co".toList (lowerChars (netloc url))) = false →
      isSubstrOf "glassdoor.com".toList (lowerChars (netloc url)) = false →
      isSubstrOf "drushim.co.il".toList (lowerChars (netloc url)) = false →
      isSubstrOf "alljobs.co.il".toList (lowerChars (netloc url)) = true →
      get_scraper url = ScraperKind.alljobs) ∧
    (∀ url, isSubstrOf "linkedin.com".toList (lowerChars (netloc url)) = false →
      (isSubstrOf "indeed.com".toList (lowerChars (netloc url)) ||
       isSubstrOf "indeed.co".toList (lowerChars (netloc url))) = false →
      isSubstrOf "glassdoor.com".toList (lowerChars (netloc url)) = false →
      isSubstrOf "drushim.co.il".toList (lowerChars (netloc url)) = false →
      isSubstrOf "alljobs.co.il".toList (lowerChars (netloc url)) = false →
      get_scraper url = ScraperKind.linkedin) := by
  refine ⟨by decide, by decide, ?_, ?_, ?_, ?_, ?_, ?_⟩ <;>
    intro url <;> intros <;> unfold get_scraper <;> simp_all

/-- C8 witness: the linkedin.com branch of the dispatch theorem at the
example URL. -/
theorem get_scraper_dispatch_witness :
    isSubstrOf "linkedin.com".toList
      (lowerChars (netloc "https://www.linkedin.com/jobs/view/1")) = true ∧
    get_scraper "https://www.linkedin.com/jobs/view/1" = ScraperKind.linkedin :=
  ⟨by decide,
    get_scraper_dispatch.2.2.1 "https://www.linkedin.com/jobs/view/1" (by decide)⟩

theorem runScrape_none (k : ScraperKind) : runScrape k none = none := by
  cases k <;> rfl

theorem truthy_iff (o : Option String) :
    truthy o = true ↔ ∃ t, o = some t ∧ t ≠ "" := by
  cases o <;> simp [truthy]

/-- C9: `scrape_job` never raises (it is a total function), returns `none`
when the fetch fails, and returns a record exactly when the dispatched
adapter extracts one whose title is present and non-empty. -/
theorem scrape_job_contract (env : String → Option Soup) (url : String) :
    (env url = none → scrape_job env url = none) ∧
    (∀ r, scrape_job env url = some r ↔
      (runScrape (get_scraper url) (env url) = some r ∧
       ∃ t, r.title = some t ∧ t ≠ "")) := by
  constructor
  · intro h
    unfold scrape_job
    rw [h, runScrape_none]
  · intro r
    unfold scrape_job
    cases hm : runScrape (get_scraper url) (env url) with
    | none => simp
    | some r' =>
      dsimp only
      by_cases ht : truthy r'.title = true
      · rw [if_pos ht]
        constructor
        · intro he
          obtain rfl := Option.some.inj he
          exact ⟨rfl, (truthy_iff _).mp ht⟩
        · rintro ⟨he, _⟩
          exact he
      · rw [if_neg ht]
        constructor
        · intro he
          cases he
        · rintro ⟨he, t, htitle, hne⟩
          obtain rfl := Option.some.inj he
          exact absurd ((truthy_iff _).mpr ⟨t, htitle, hne⟩) ht

/-- C9 witness: a successful scrape through the full pipeline at a concrete
environment and URL, via the contract theorem. -/
theorem scrape_job_contract_witness :
    scrape_job env0 "https://www.linkedin.com/jobs/view/1" = some jd0 :=
  ((scrape_job_contract env0 "https://www.linkedin.com/jobs/view/1").2 jd0).mpr
    ⟨by decide, "Engineer", by decide, by decide⟩

theorem digit_ne_comma {c : Char} (h : c.isDigit = true) : c ≠ ',' := by
  intro e
  subst e
  simp [Char.isDigit] at h

theorem digit_ne_shekel {c : Char} (h : c.isDigit = true) : c ≠ '₪' := by
  intro e
  subst e
  simp [Char.isDigit] at h

theorem digit_not_space {c : Char} (h : c.isDigit = true) : isPySpace c = false := by
  cases hb : isPySpace c with
  | false => rfl
  | true =>
    exfalso
    unfold isPySpace at hb
    simp only [Bool.or_eq_true, decide_eq_true_eq] at hb
    rcases hb with ((((e | e) | e) | e) | e) | e <;> subst e <;>
      exact absurd h (by decide)

theorem spanDigits_fst_all (l : List Char) :
    (spanDigits l).1.all Char.isDigit = true := by
  induction l with
  | nil => rfl
  | cons c rest ih =>
    by_cases hc : c.isDigit = true
    · simp [spanDigits, hc, ih]
    · simp [spanDigits, hc]

theorem stripCommas_commaGroups_all (l : List Char) :
    (stripCommas (commaGroups l).1).all Char.isDigit = true := by
  induction l using commaGroups.induct with
  | case1 a b c rest h ih =>
    obtain ⟨⟨ha, hb⟩, hc⟩ : (a.isDigit = true ∧ b.isDigit = true) ∧ c.isDigit = true := by
      simpa [Bool.and_eq_true] using h
    simp only [commaGroups]
    rw [if_pos h]
    have e : stripCommas (',' :: a :: b :: c :: (commaGroups rest).1) =
        a :: b :: c :: stripCommas (commaGroups rest).1 := by
      simp [stripCommas, digit_ne_comma ha, digit_ne_comma hb, digit_ne_comma hc]
    rw [e]
    simp [ha, hb, hc, ih]
  | case2 a b c rest h =>
    simp only [commaGroups]
    rw [if_neg h]
    rfl
  | case3 l hne =>
    have e : commaGroups l = ([], l) := by
      rw [commaGroups.eq_def]
      split
      · exact (hne _ _ _ _ rfl).elim
      · rfl
    rw [e]
    rfl

theorem stripCommas_of_all_digit {l : List Char} (h : l.all Char.isDigit = true) :
    stripCommas l = l := by
  unfold stripCommas
  rw [List.filter_eq_self]
  intro c hc
  have := List.all_eq_true.mp h c hc
  simpa using digit_ne_comma this

theorem stripCommas_append (l1 l2 : List Char) :
    stripCommas (l1 ++ l2) = stripCommas l1 ++ stripCommas l2 := by
  unfold stripCommas
  simp [List.filter_append]

theorem matchNumNoDec_pyInt {l g r : List Char}
    (h : matchNumNoDec l = some (g, r)) :
    pyIntOpt g = some ((digitsToNat (stripCommas g) : Nat) : Int) := by
  unfold matchNumNoDec at h
  by_cases hd : (spanDigits l).1.isEmpty = true
  · simp [hd] at h
  · simp only [hd, Bool.false_eq_true, if_false, Option.some.injEq, Prod.mk.injEq] at h
    obtain ⟨rfl, rfl⟩ := h
    have hsplit := stripCommas_append (spanDigits l).1 (commaGroups (spanDigits l).2).1
    rw [stripCommas_of_all_digit (spanDigits_fst_all l)] at hsplit
    have hall : (stripCommas ((spanDigits l).1 ++ (commaGroups (spanDigits l).2).1)).all
        Char.isDigit = true := by
      rw [hsplit, List.all_append]
      simp [spanDigits_fst_all l, stripCommas_commaGroups_all (spanDigits l).2]
    have hne : stripCommas ((spanDigits l).1 ++ (commaGroups (spanDigits l).2).1) ≠ [] := by
      rw [hsplit]
      intro hemp
      rcases List.append_eq_nil.mp hemp with ⟨h1, _⟩
      rw [h1] at hd
      simp at hd
    unfold pyIntOpt
    rw [if_pos ⟨hne, hall⟩]

theorem firstNumberChars_dropSpaces (l : List Char) :
    firstNumberChars (dropSpaces l) = firstNumberChars l := by
  induction l with
  | nil => rfl
  | cons c rest ih =>
    by_cases hs : isPySpace c = true
    · have hcd : c.isDigit = false := by
        by_contra hcontra
        have := digit_not_space (c := c) (by simpa using hcontra)
        rw [hs] at this
        cases this
      simp [dropSpaces, List.dropWhile, hs, firstNumberChars, hcd]
      simpa [dropSpaces] using ih
    · simp [dropSpaces, List.dropWhile, hs]

theorem firstNumberChars_optShekel (l : List Char) :
    firstNumberChars (optChar '₪' l) = firstNumberChars l := by
  cases l with
  | nil => rfl
  | cons c rest =>
    by_cases hc : c = '₪'
    · subst hc
      simp [optChar, firstNumberChars]
    · simp [optChar, hc]

theorem singleAt_some_firstNumber {l : List Char} {g : List Char}
    (h : singleAt l = some g) : firstNumberChars l = some g := by
  unfold singleAt at h
  rw [← firstNumberChars_optShekel l, ← firstNumberChars_dropSpaces (optChar '₪' l)]
  revert h
  cases hm : matchNumNoDec (dropSpaces (optChar '₪' l)) with
  | none => intro h; cases h
  | some gr =>
    intro h
    obtain ⟨g', r'⟩ := gr
    simp only [Option.some.injEq] at h
    subst h
    unfold matchNumNoDec at hm
    by_cases hd : (spanDigits (dropSpaces (optChar '₪' l))).1.isEmpty = true
    · simp [hd] at hm
    · simp only [hd, Bool.false_eq_true, if_false, Option.some.injEq, Prod.mk.injEq] at hm
      obtain ⟨rfl, _⟩ := hm
      cases hl : dropSpaces (optChar '₪' l) with
      | nil => rw [hl] at hd; simp [spanDigits] at hd
      | cons c rest =>
        rw [hl] at hd
        have hc : c.isDigit = true := by
          by_contra hcontra
          simp [spanDigits, hcontra] at hd
        simp [firstNumberChars, hc]

theorem singleAt_digit_head {c : Char} (rest : List Char) (hc : c.isDigit = true) :
    singleAt (c :: rest) =
      some ((spanDigits (c :: rest)).1 ++ (commaGroups (spanDigits (c :: rest)).2).1) := by
  unfold singleAt
  have h1 : optChar '₪' (c :: rest) = c :: rest := by
    simp [optChar, digit_ne_shekel hc]
  have h2 : dropSpaces (c :: rest) = c :: rest := by
    simp [dropSpaces, List.dropWhile, digit_not_space hc]
  rw [h1, h2]
  unfold matchNumNoDec
  have hne : (spanDigits (c :: rest)).1.isEmpty = false := by
    simp [spanDigits, hc]
  simp [hne]

theorem searchSingle_firstNumber (l : List Char) (hd : hasDigit l = true) :
    ∃ g, searchSingle l = some g ∧ firstNumberChars l = some g ∧
      pyIntOpt g = some ((digitsToNat (stripCommas g) : Nat) : Int) := by
  induction l with
  | nil => simp [hasDigit] at hd
  | cons c rest ih =>
    cases hs : singleAt (c :: rest) with
    | some g =>
      refine ⟨g, ?_, singleAt_some_firstNumber hs, ?_⟩
      · unfold searchSingle
        rw [hs]
      · have hfg := hs
        unfold singleAt at hfg
        cases hm : matchNumNoDec (dropSpaces (optChar '₪' (c :: rest))) with
        | none => rw [hm] at hfg; cases hfg
        | some gr =>
          obtain ⟨g', r'⟩ := gr
          rw [hm] at hfg
          simp only [Option.some.injEq] at hfg
          subst hfg
          exact matchNumNoDec_pyInt hm
    | none =>
      have hc : c.isDigit = false := by
        by_contra hcontra
        rw [singleAt_digit_head rest (by simpa using hcontra)] at hs
        cases hs
      have hrest : hasDigit rest = true := by
        simp only [hasDigit, List.any_cons, hc, Bool.false_or] at hd
        exact hd
      obtain ⟨g, hsearch, hfirst, hpy⟩ := ih hrest
      refine ⟨g, ?_, ?_, hpy⟩
      · unfold searchSingle
        rw [hs, hsearch]
      · simp [firstNumberChars, hc, hfirst]

/-- C10 (counterexample): the text "10-20" contains digit sequences and no
currency tag at all (neither ₪ nor $), yet `extract_salary` does not return
the single-value fallback min = max = 10: the range branch — whose currency
signs are optional — captures the untagged range first and returns min 10,
max 20. -/
theorem salary_fallback_cex :
    hasDigit "10-20".toList = true ∧
    ("10-20".toList.all (fun c => c ≠ '₪' && c ≠ '$')) = true ∧
    extract_salary "10-20" = some ⟨some 10, some 20, "ILS"⟩ ∧
    extract_salary "10-20" ≠ some ⟨some 10, some 10, "ILS"⟩ := by
  refine ⟨by decide, by decide, by decide, by decide⟩

/-- C10 (amended): for every text that contains at least one digit sequence
and on which neither the ILS range pattern nor the USD range pattern matches
(the range patterns' currency signs are optional, so this is stronger than
"no currency-tagged range"), `extract_salary` returns min = max = the first
number appearing anywhere in the text (commas stripped) with currency "ILS",
even when that number is unrelated to salary. -/
theorem salary_single_fallback (text : String)
    (hils : searchIls text.toList = none) (husd : searchUsd text.toList = none)
    (hd : hasDigit text.toList = true) :
    ∃ v : Nat, firstNumberVal text.toList = some v ∧
      extract_salary text = some ⟨some (v : Int), some (v : Int), "ILS"⟩ := by
  obtain ⟨g, hsearch, hfirst, hpy⟩ := searchSingle_firstNumber text.toList hd
  refine ⟨digitsToNat (stripCommas g), ?_, ?_⟩
  · simp only [firstNumberVal, hfirst, Option.map_some']
  · unfold extract_salary
    simp only [hils, husd, hsearch, hpy]

/-- C10 witness: the fallback on "5 years experience" returns 5/5/ILS. -/
theorem salary_single_fallback_witness :
    searchIls "5 years experience".toList = none ∧
    searchUsd "5 years experience".toList = none ∧
    hasDigit "5 years experience".toList = true ∧
    (∃ v : Nat, firstNumberVal "5 years experience".toList = some v ∧
      extract_salary "5 years experience" =
        some ⟨some (v : Int), some (v : Int), "ILS"⟩) :=
  ⟨by decide, by decide, by decide,
    salary_single_fallback "5 years experience" (by decide) (by decide) (by decide)⟩

end JobMate
